import Mathlib

/-! Verification development for the GhostType audio enhancement engine
(`src/python/enhancement_engine.py`), shallowly embedded over the reals.
Float arithmetic is idealised as real arithmetic; integer-valued float
operations (frame sizes, PCM16 samples) are modelled over `ℚ`/`ℤ`. -/

namespace GhostType

open Real

/-- Diagnostic values appearing in a stats report: scalars or strings. -/
inductive StatVal where
  | str (s : String)
  | int (n : ℤ)
  | real (r : ℝ)
  | bool (b : Bool)

/-- The flat diagnostics report (`stats` dict); later entries are appended. -/
abbrev Stats := List (String × StatVal)

/-- `_clamp(value, lower, upper) = max(lower, min(upper, value))`. -/
noncomputable def clamp (value lower upper : ℝ) : ℝ := max lower (min upper value)

/-- `LimiterConfig` dataclass. -/
structure LimiterConfig where
  enabled : Bool := true
  threshold : ℝ := 0.98
  attack_ms : ℝ := 5.0
  release_ms : ℝ := 50.0

/-- `TargetsConfig` dataclass. -/
structure TargetsConfig where
  lufs_target : ℝ := -18.0
  max_gain_db : ℝ := 18.0

/-- `EnhancementV2Config` dataclass (the unused VAD sub-config is omitted). -/
structure EnhancementV2Config where
  mode : String := "fast_dsp"
  ns_engine : String := "webrtc"
  noise_suppression_level : String := "moderate"
  loudness_strategy : String := "dynaudnorm"
  dynamics : String := "upward_comp"
  limiter : LimiterConfig := {}
  targets : TargetsConfig := {}
  hpf_cutoff_hz : ℝ := 80.0

/-- `math.log10`. -/
noncomputable def log10 (x : ℝ) : ℝ := Real.logb 10 x

/-- `np.mean` over a list (division by zero yields the junk value `0`,
matching the fact that the source never takes a mean of an empty array on
the paths we verify). -/
noncomputable def listMean (xs : List ℝ) : ℝ := xs.sum / xs.length

/-- `np.max(np.abs(a))`; the `0` seed is inert because `|x| ≥ 0`. -/
noncomputable def maxAbs (xs : List ℝ) : ℝ := (xs.map (fun x => |x|)).foldr max 0

/-- `_estimate_rms_dbfs`. -/
noncomputable def estimate_rms_dbfs (signal : List ℝ) : ℝ :=
  if signal.length = 0 then -120.0
  else 20.0 * log10 (max (Real.sqrt (listMean (signal.map (fun x => x ^ 2)))) 1e-7)

/-- `_estimate_peak_dbfs`. -/
noncomputable def estimate_peak_dbfs (signal : List ℝ) : ℝ :=
  if signal.length = 0 then -120.0
  else 20.0 * log10 (max (maxAbs signal) 1e-7)

/-- `np.percentile(a, q)` with numpy's default linear-interpolation method:
index position `(n-1)*q/100` into the ascending sort of `a`. -/
noncomputable def percentile (a : List ℝ) (q : ℚ) : ℝ :=
  let sorted := a.insertionSort (· ≤ ·)
  let n := a.length
  let pos : ℚ := (n - 1 : ℚ) * q / 100
  let i : ℕ := pos.floor.toNat
  let frac : ℝ := ((pos - pos.floor : ℚ) : ℝ)
  let lo := sorted.getD i 0
  let hi := sorted.getD (min (i + 1) (n - 1)) 0
  lo + frac * (hi - lo)

/-- `_estimate_noise_floor_db`: dBFS of the 20th percentile of `|signal|`. -/
noncomputable def estimate_noise_floor_db (signal : List ℝ) : ℝ :=
  if signal.length = 0 then -120.0
  else 20.0 * log10 (max (percentile (signal.map (fun x => |x|)) 20) 1e-7)

/-- Round to the nearest integer, ties to even: the behaviour of `np.round`
and Python's built-in `round` on floats. -/
noncomputable def roundHalfEvenR (x : ℝ) : ℤ :=
  let n := ⌊x⌋
  if x - n < 1 / 2 then n
  else if (1 : ℝ) / 2 < x - n then n + 1
  else if n % 2 = 0 then n else n + 1

/-- The same banker's rounding over `ℚ` (used where the source rounds exact
integer-derived quantities such as `round(sample_rate * 0.01)`). -/
def roundHalfEvenQ (x : ℚ) : ℤ :=
  let n := ⌊x⌋
  if x - n < 1 / 2 then n
  else if (1 : ℚ) / 2 < x - n then n + 1
  else if n % 2 = 0 then n else n + 1

/-- Python's `round(x, d)` / `np.round(x, d)` to `d` decimal places
(banker's rounding), used only to fill diagnostic entries. -/
noncomputable def np_round_to (x : ℝ) (d : ℕ) : ℝ :=
  (roundHalfEvenR (x * 10 ^ d) : ℝ) / 10 ^ d

/-- Abstraction of the optional `webrtc_audio_processing` module: constructing
and configuring the module (`AudioProcessingModule(...)`, `set_stream_format`,
`set_ns_level`, `set_agc_target`, `set_agc_level`) may raise, and processing
one 10 ms PCM16 frame (`process_stream`) may raise or return arbitrary PCM16
bytes. The per-frame function receives the frame index to allow for backend
state. -/
structure NsBackend where
  init : Except String Unit
  processFrame : ℕ → List ℤ → Except String (List ℤ)

/-- Availability of the optional third-party plugins (`pyloudnorm`,
`webrtc_audio_processing`, `rnnoise`, `deepfilternet`, `speexdsp`): `none` /
`false` models a failed import. A present `pyloudnorm` is a meter
`sample_rate → samples → loudness` that may raise. -/
structure PluginEnv where
  pyloudnorm : Option (ℤ → List ℝ → Except String ℝ) := none
  webrtc_apm : Option NsBackend := none
  rnnoise_mod : Bool := false
  deepfilternet_mod : Bool := false
  speexdsp_mod : Bool := false

/-- `_apply_dc_removal`: subtract the arithmetic mean. -/
noncomputable def apply_dc_removal (signal : List ℝ) : List ℝ × Stats :=
  let dc := listMean signal
  (signal.map (fun x => x - dc), [("dc_offset_removed", .real (np_round_to dc 6))])

/-- The one-pole recurrence `y[i] = alpha * (y[i-1] + x[i] - x[i-1])`, given
the previous output and previous input. -/
noncomputable def hpfGo (alpha : ℝ) : ℝ → ℝ → List ℝ → List ℝ
  | _, _, [] => []
  | yPrev, xPrev, x :: xs =>
    let y := alpha * (yPrev + x - xPrev)
    y :: hpfGo alpha y x xs

/-- `_apply_high_pass_filter`. -/
noncomputable def apply_high_pass_filter (signal : List ℝ) (cutoff_hz : ℝ)
    (sample_rate : ℤ) : List ℝ × Stats :=
  if signal.length < 2 ∨ cutoff_hz ≤ 0 then (signal, [("hpf_enabled", .bool false)])
  else
    let dt : ℝ := 1 / (sample_rate : ℝ)
    let rc : ℝ := 1 / (2 * Real.pi * cutoff_hz)
    let alpha := rc / (rc + dt)
    let out := match signal with
      | [] => signal
      | x0 :: rest => x0 :: hpfGo alpha x0 x0 rest
    (out, [("hpf_enabled", .bool true), ("hpf_cutoff_hz", .real (np_round_to cutoff_hz 2)),
           ("hpf_alpha", .real (np_round_to alpha 6))])

/-- `_map_ns_level`. -/
def map_ns_level (cfg : EnhancementV2Config) : ℤ :=
  if cfg.noise_suppression_level = "low" then 0
  else if cfg.noise_suppression_level = "moderate" then 1
  else if cfg.noise_suppression_level = "high" then 2
  else if cfg.noise_suppression_level = "veryhigh" then 3
  else 1

/-- `_map_agc_params`. -/
def map_agc_params (cfg : EnhancementV2Config) : ℤ × ℤ :=
  if cfg.mode = "high_quality" then (18, 68) else (20, 58)

/-- `_float_to_pcm16`: `np.round(np.clip(signal, -1, 1) * 32767).astype(np.int16)`
(the `int16` cast never wraps because the clipped product lies in
`[-32767, 32767]`). -/
noncomputable def float_to_pcm16 (signal : List ℝ) : List ℤ :=
  signal.map (fun x => roundHalfEvenR (clamp x (-1.0) 1.0 * 32767.0))

/-- The float32 reconstruction of a returned PCM16 sample (`/ 32768.0`). -/
noncomputable def pcm16_to_float (v : ℤ) : ℝ := (v : ℝ) / 32768.0

/-- `frame_size = max(1, int(round(sample_rate * 0.01)))` (10 ms). -/
def ns_frame_size (sample_rate : ℤ) : ℕ := (max 1 (roundHalfEvenQ ((sample_rate : ℚ) * 0.01))).toNat

/-- The zero-padded PCM16 payload submitted to the backend for one frame:
`self._float_to_pcm16(np.pad(frame, (0, frame_size - frame.size))).tobytes()`. -/
noncomputable def nsPaddedPcm (frame_size : ℕ) (frame : List ℝ) : List ℤ :=
  float_to_pcm16 (frame ++ List.replicate (frame_size - frame.length) 0)

/-- The per-frame loop of `_apply_noise_suppression`: each frame is
zero-padded to `frame_size`, converted to PCM16 and submitted; any exception
returns the original signal with an error diagnostic; otherwise the returned
samples are divided by 32768, zero-padded if short, and the first
`frame.length` samples are committed. -/
noncomputable def nsRunFrames (backend : NsBackend) (orig : List ℝ) (frame_size : ℕ)
    (ns_level agc_target agc_level : ℤ) :
    ℕ → List (List ℝ) → List ℝ → List ℝ × Stats
  | idx, [], acc =>
    (acc, [("ns_backend", .str "webrtc_apm"), ("ns_frames_processed", .int idx),
           ("ns_level", .int ns_level), ("agc_target", .int agc_target),
           ("agc_level", .int agc_level)])
  | idx, frame :: rest, acc =>
    match backend.processFrame idx (nsPaddedPcm frame_size frame) with
    | .error exc => (orig, [("ns_backend", .str "error"),
                            ("ns_error", .str ("process_failed: " ++ exc))])
    | .ok payload =>
      let out_frame := payload.map pcm16_to_float
      let out_frame := out_frame ++ List.replicate (frame_size - out_frame.length) 0
      nsRunFrames backend orig frame_size ns_level agc_target agc_level
        (idx + 1) rest (acc ++ out_frame.take frame.length)

/-- The frames `signal[start:start+frame_size]` for
`start in range(0, len(signal), frame_size)`. -/
def nsFrames (frame_size : ℕ) (signal : List ℝ) : List (List ℝ) :=
  (List.range ((signal.length + frame_size - 1) / frame_size)).map
    (fun k => (signal.drop (k * frame_size)).take frame_size)

/-- `_apply_noise_suppression`. -/
noncomputable def apply_noise_suppression (env : PluginEnv) (cfg : EnhancementV2Config)
    (signal : List ℝ) (sample_rate : ℤ) : List ℝ × Stats :=
  let requested := cfg.ns_engine
  if requested = "off" then (signal, [("ns_backend", .str "off")])
  else if requested = "rnnoise" ∧ env.rnnoise_mod then
    (signal, [("ns_backend", .str "rnnoise_passthrough")])
  else
    let requested := if requested = "rnnoise" then "webrtc" else requested
    if requested = "deepfilternet" ∧ env.deepfilternet_mod then
      (signal, [("ns_backend", .str "deepfilternet_passthrough")])
    else
      let requested := if requested = "deepfilternet" then "webrtc" else requested
      if requested = "speex" ∧ env.speexdsp_mod then
        (signal, [("ns_backend", .str "speex_passthrough")])
      else
        let requested := if requested = "speex" then "webrtc" else requested
        if requested ≠ "webrtc" then (signal, [("ns_backend", .str "off")])
        else
          match env.webrtc_apm with
          | none => (signal, [("ns_backend", .str "unavailable")])
          | some backend =>
            let frame_size := ns_frame_size sample_rate
            if signal.length < frame_size then
              (signal, [("ns_backend", .str "webrtc_apm"), ("ns_frames_processed", .int 0)])
            else
              let ns_level := map_ns_level cfg
              let agc := map_agc_params cfg
              match backend.init with
              | .error exc => (signal, [("ns_backend", .str "error"),
                                        ("ns_error", .str ("init_failed: " ++ exc))])
              | .ok _ =>
                nsRunFrames backend signal frame_size ns_level agc.1 agc.2
                  0 (nsFrames frame_size signal) []

/-- The forced-odd Gaussian kernel length `max(3, int(window) | 1)` of
`_smooth_curve`. -/
def smoothKernelLen (window : ℤ) : ℕ := (max 3 (Int.lor window 1)).toNat

/-- The unnormalised Gaussian kernel tap
`exp(-(j - half)^2 / (2 * sigma^2))` with `sigma = max(1, length / 6)` and
`half = length // 2` (tap offsets `np.arange(-half, half + 1)`). -/
noncomputable def gaussRaw (window : ℤ) (j : ℕ) : ℝ :=
  let length := smoothKernelLen window
  let sigma : ℝ := max 1.0 ((length : ℝ) / 6.0)
  Real.exp (-((j : ℝ) - ((length / 2 : ℕ) : ℝ)) ^ 2 / (2 * sigma * sigma))

/-- The kernel normalised to sum 1 (`kernel /= np.sum(kernel)`). -/
noncomputable def gaussKernel (window : ℤ) (j : ℕ) : ℝ :=
  gaussRaw window j / ∑ i ∈ Finset.range (smoothKernelLen window), gaussRaw window i

/-- `np.pad(values, (half, half), mode="edge")`. -/
noncomputable def smoothPadded (values : List ℝ) (window : ℤ) : List ℝ :=
  let half := smoothKernelLen window / 2
  List.replicate half values.headI ++ values ++ List.replicate half (values.getLastD 0)

/-- `_smooth_curve(values, window)`: Gaussian kernel of forced-odd length
`max(3, int(window) | 1)`, normalised to sum 1; edge padding by
`length // 2` on both sides, then `np.convolve(..., mode="valid")` (which
flips the kernel). -/
noncomputable def smooth_curve (values : List ℝ) (window : ℤ) : List ℝ :=
  if values.length ≤ 1 then values
  else
    List.ofFn (fun k : Fin ((smoothPadded values window).length + 1 - smoothKernelLen window) =>
      ∑ j ∈ Finset.range (smoothKernelLen window),
        (smoothPadded values window).getD ((k : ℕ) + (smoothKernelLen window - 1 - j)) 0 *
          gaussKernel window j)

/-- The elements of `signal` selected by `signal[mask]`. -/
def maskSelect (signal : List ℝ) (mask : List Bool) (keep : Bool) : List ℝ :=
  ((signal.zip mask).filter (fun p => p.2 = keep)).map Prod.fst

/-- The `target_map` lookup of `_apply_rms_target` (`.get(mode, -24.0)`). -/
def rms_target_db (mode : String) : ℝ :=
  if mode = "fast_dsp" then -24.0
  else if mode = "high_quality" then -22.0
  else if mode = "custom" then -24.0
  else -24.0

/-- The boost-only gain in dB applied by `_apply_rms_target`:
`clamp(target - measured, 0, max_gain_db)`. -/
noncomputable def rms_gain_db (cfg : EnhancementV2Config) (signal : List ℝ) : ℝ :=
  clamp (rms_target_db cfg.mode - estimate_rms_dbfs signal) 0.0 cfg.targets.max_gain_db

/-- `_apply_rms_target`: flat RMS target by mode, boost-only gain. -/
noncomputable def apply_rms_target (cfg : EnhancementV2Config) (signal : List ℝ) :
    List ℝ × Stats :=
  let target_db : ℝ := rms_target_db cfg.mode
  let gain_db := rms_gain_db cfg signal
  let gain_linear : ℝ := (10 : ℝ) ^ (gain_db / 20)
  (signal.map (fun x => x * gain_linear),
   [("loudness_backend", .str "rms_target"), ("applied_gain_db", .real (np_round_to gain_db 2)),
    ("target_rms_dbfs", .real (np_round_to target_db 2))])

/-- `_apply_lufs_normalization`. -/
noncomputable def apply_lufs_normalization (env : PluginEnv) (cfg : EnhancementV2Config)
    (signal : List ℝ) (sample_rate : ℤ) (speech_mask : Option (List Bool)) :
    List ℝ × Stats :=
  match env.pyloudnorm with
  | none =>
    let fb := apply_rms_target cfg signal
    (fb.1, fb.2 ++ [("lufs_backend", .str "fallback_rms")])
  | some meter =>
    let measured_sig :=
      match speech_mask with
      | some m => if m.length = signal.length ∧ m.contains true then maskSelect signal m true
                  else signal
      | none => signal
    if (measured_sig.length : ℤ) < max 256 (Int.fdiv sample_rate 10) then
      let fb := apply_rms_target cfg signal
      (fb.1, fb.2 ++ [("lufs_backend", .str "fallback_rms_short_input")])
    else
      match meter sample_rate measured_sig with
      | .error _ =>
        let fb := apply_rms_target cfg signal
        (fb.1, fb.2 ++ [("lufs_backend", .str "fallback_rms_error")])
      | .ok measured_lufs =>
        let gain_db := clamp (cfg.targets.lufs_target - measured_lufs) (-12.0)
          cfg.targets.max_gain_db
        let gain_linear : ℝ := (10 : ℝ) ^ (gain_db / 20)
        (signal.map (fun x => x * gain_linear),
         [("lufs_backend", .str "pyloudnorm"), ("speech_lufs", .real (np_round_to measured_lufs 2)),
          ("target_lufs", .real (np_round_to cfg.targets.lufs_target 2)),
          ("applied_gain_db", .real (np_round_to gain_db 2))])

/-- `frame_len = max(1, int(round(sample_rate * (frame_len_ms / 1000))))`. -/
def dynFrameLen (sample_rate : ℤ) (frame_len_ms : ℚ) : ℕ :=
  (max 1 (roundHalfEvenQ ((sample_rate : ℚ) * (frame_len_ms / 1000)))).toNat

/-- The per-frame desired gains of `_apply_dynaudnorm_like`: unity below the
noise gate, else `clamp(peak_target / max(peak, 1e-5), 1, max_gain_linear)`,
for each of the `ceil(len / frame_len)` frames. -/
noncomputable def dynFrameGains (signal : List ℝ) (frame_len : ℕ)
    (gate_db max_gain_linear peak_target : ℝ) : List ℝ :=
  (List.range ((signal.length + frame_len - 1) / frame_len)).map (fun k =>
    let frame := (signal.drop (k * frame_len)).take frame_len
    let rms_db := estimate_rms_dbfs frame
    let peak : ℝ := if frame.length ≠ 0 then maxAbs frame else 0.0
    if rms_db < gate_db then 1.0
    else clamp (peak_target / max peak 1e-5) 1.0 max_gain_linear)

/-- `out[start:end] = signal[start:end] * smoothed[idx]`: sample `i` is
scaled by the smoothed gain of its frame `i / frame_len`. -/
noncomputable def dynApplyGains (signal smoothed : List ℝ) (frame_len : ℕ) : List ℝ :=
  List.ofFn (fun i : Fin signal.length =>
    signal.get i * smoothed.getD ((i : ℕ) / frame_len) 0)

/-- `out[~speech_mask] = signal[~speech_mask]`: non-speech samples are
restored to their pre-gain value when the mask length matches. -/
noncomputable def dynMaskRestore (signal gained : List ℝ)
    (speech_mask : Option (List Bool)) : List ℝ :=
  match speech_mask with
  | some m =>
    if m.length = gained.length then
      List.ofFn (fun i : Fin gained.length =>
        if m.getD (i : ℕ) true then gained.get i else signal.getD (i : ℕ) 0)
    else gained
  | none => gained

/-- `_apply_dynaudnorm_like`: frame-wise adaptive gain with Gaussian
smoothing, silence gating, and mask-aware restoration. -/
noncomputable def apply_dynaudnorm_like (cfg : EnhancementV2Config) (signal : List ℝ)
    (sample_rate : ℤ) (speech_mask : Option (List Bool)) : List ℝ × Stats :=
  let frame_len_ms : ℚ := if cfg.mode = "high_quality" then 500 else 250
  let smooth_window : ℤ := if cfg.mode = "high_quality" then 31 else 13
  let frame_len := dynFrameLen sample_rate frame_len_ms
  let max_gain := min cfg.targets.max_gain_db 10.0
  let max_gain_linear : ℝ := (10 : ℝ) ^ (max_gain / 20)
  let peak_target : ℝ := 0.95
  let gate_db := estimate_noise_floor_db signal + 8.0
  let frame_gains := dynFrameGains signal frame_len gate_db max_gain_linear peak_target
  if frame_gains.length = 0 then
    (signal, [("loudness_backend", .str "dynaudnorm_like"), ("applied_gain_db", .real 0.0),
              ("noise_gate_db", .real (np_round_to gate_db 2))])
  else
    let smoothed := smooth_curve frame_gains smooth_window
    let out := dynMaskRestore signal (dynApplyGains signal smoothed frame_len) speech_mask
    let applied_gain_db := 20.0 * log10 (max (listMean smoothed) 1e-7)
    (out, [("loudness_backend", .str "dynaudnorm_like"),
           ("applied_gain_db", .real (np_round_to applied_gain_db 2)),
           ("noise_gate_db", .real (np_round_to gate_db 2)),
           ("dyn_peak_target", .real peak_target), ("dyn_max_gain_db", .real max_gain),
           ("dyn_frame_len_ms", .real ((frame_len_ms : ℝ))),
           ("dyn_gauss_window", .int smooth_window)])

open Classical in
/-- `_apply_loudness_stage`: dispatch on the configured strategy (the source
has a redundant `if` on `lufs_backend` whose branches coincide). -/
noncomputable def apply_loudness_stage (env : PluginEnv) (cfg : EnhancementV2Config)
    (signal : List ℝ) (sample_rate : ℤ) (speech_mask : Option (List Bool)) :
    List ℝ × Stats :=
  if cfg.loudness_strategy = "lufs" then
    let p := apply_lufs_normalization env cfg signal sample_rate speech_mask
    if p.2.lookup "lufs_backend" = some (.str "fallback_rms") then p else p
  else if cfg.loudness_strategy = "dynaudnorm" then
    apply_dynaudnorm_like cfg signal sample_rate speech_mask
  else apply_rms_target cfg signal

/-- The per-sample loop of `_apply_upward_compressor`: carries the envelope
`env`, and for each sample emits `(sample * gain, gain)`. Constants follow
the source: threshold 0.125, ratio 2.0, asymmetric attack/release smoothing. -/
noncomputable def compLoop (attack release max_gain : ℝ) : ℝ → List ℝ → List (ℝ × ℝ)
  | _, [] => []
  | env, sample :: rest =>
    let level := |sample|
    let coef := if env < level then attack else release
    let envNext := coef * env + (1 - coef) * level
    let gainRaw : ℝ :=
      if envNext < 0.125 then (0.125 / max envNext 1e-5) ^ ((1 : ℝ) - 1 / 2.0) else 1.0
    let gain := clamp gainRaw 1.0 max_gain
    (sample * gain, gain) :: compLoop attack release max_gain envNext rest

/-- The gain ceiling `10 ** (min(max_gain_db, 18) / 20)` of the upward
compressor. -/
noncomputable def compMaxGain (cfg : EnhancementV2Config) : ℝ :=
  (10 : ℝ) ^ (min cfg.targets.max_gain_db 18.0 / 20)

/-- The `(out, gain)` pairs of `_apply_upward_compressor`: envelope follower
(attack 20 ms, release 250 ms at a fixed internal 16 kHz) driving an upward
gain below the 0.125 threshold, clamped to `[1, compMaxGain]`. -/
noncomputable def compPairs (cfg : EnhancementV2Config) (signal : List ℝ) : List (ℝ × ℝ) :=
  compLoop (Real.exp (-1 / max 1.0 ((20.0 / 1000) * 16000)))
    (Real.exp (-1 / max 1.0 ((250.0 / 1000) * 16000))) (compMaxGain cfg) 0.0 signal

/-- `_apply_upward_compressor`: attack/release coefficients
`exp(-1 / max(1, (ms / 1000) * 16000))` for 20 ms / 250 ms. -/
noncomputable def apply_upward_compressor (cfg : EnhancementV2Config) (signal : List ℝ) :
    List ℝ × Stats :=
  let pairs := compPairs cfg signal
  let out := pairs.map Prod.fst
  let gain_trace := pairs.map Prod.snd
  let avg_gain := listMean gain_trace
  (out, [("upward_comp_avg_gain_db", .real (np_round_to (20.0 * log10 (max avg_gain 1e-7)) 2)),
         ("upward_comp_peak_gain_db",
          .real (np_round_to (20.0 * log10 (max (gain_trace.foldr max 0) 1e-7)) 2)),
         ("upward_comp_threshold", .real 0.125), ("upward_comp_ratio", .real 2.0)])

/-- The per-sample gain recursion of `_apply_limiter`: emits the list of
successive smoothed gains starting from gain 1. -/
noncomputable def limiterGains (attack release threshold : ℝ) : ℝ → List ℝ → List ℝ
  | _, [] => []
  | gain, sample :: rest =>
    let abs_sample := |sample|
    let target_gain := if abs_sample ≤ threshold then 1.0 else threshold / max abs_sample 1e-6
    let coef := if target_gain < gain then attack else release
    let gainNext := coef * gain + (1 - coef) * target_gain
    gainNext :: limiterGains attack release threshold gainNext rest

/-- `_apply_limiter`: threshold clamped to `[0.6, 0.999]`, attack/release
floors 0.1 ms / 1 ms at a fixed internal 16 kHz, asymmetric gain smoothing,
and a final hard clip of `sample * gain` to `[-1, 1]`. -/
noncomputable def apply_limiter (cfg : EnhancementV2Config) (signal : List ℝ)
    (force_enable : Bool) (threshold_override : Option ℝ) : List ℝ × Stats :=
  if ¬(force_enable || cfg.limiter.enabled) then
    (signal, [("limiter_enabled", .bool false), ("limiter_reduction_db", .real 0.0)])
  else
    let threshold := clamp (threshold_override.getD cfg.limiter.threshold) 0.6 0.999
    let attack_ms := max 0.1 cfg.limiter.attack_ms
    let release_ms := max 1.0 cfg.limiter.release_ms
    let attack := Real.exp (-1 / max 1.0 ((attack_ms / 1000) * 16000.0))
    let release := Real.exp (-1 / max 1.0 ((release_ms / 1000) * 16000.0))
    let gains := limiterGains attack release threshold 1.0 signal
    let out := (signal.zip gains).map (fun p => p.1 * p.2)
    let out := out.map (fun x => clamp x (-1.0) 1.0)
    let reduction_db := -20.0 * log10 (max (gains.foldr min 1) 1e-7)
    (out, [("limiter_enabled", .bool true), ("limiter_threshold", .real (np_round_to threshold 4)),
           ("limiter_reduction_db", .real (np_round_to reduction_db 2)),
           ("limiter_attack_ms", .real (np_round_to attack_ms 2)),
           ("limiter_release_ms", .real (np_round_to release_ms 2))])

/-- `_apply_dynamics_stage`: `off` pass-through, `upward_comp` compressor
alone, otherwise compressor followed by a forced limiter with threshold
capped at 0.99, limiter diagnostics re-prefixed with `dyn_`. -/
noncomputable def apply_dynamics_stage (cfg : EnhancementV2Config) (signal : List ℝ) :
    List ℝ × Stats :=
  if cfg.dynamics = "off" then (signal, [("dynamics_backend", .str "off")])
  else
    let comp := apply_upward_compressor cfg signal
    if cfg.dynamics = "upward_comp" then
      (comp.1, comp.2 ++ [("dynamics_backend", .str "upward_comp")])
    else
      let lim := apply_limiter cfg comp.1 true (some (min cfg.limiter.threshold 0.99))
      (lim.1, comp.2 ++ lim.2.map (fun kv => ("dyn_" ++ kv.1, kv.2)) ++
        [("dynamics_backend", .str "comp_limiter")])

open Classical in
/-- `EnhancementEngine.process`: the full pipeline. Empty input returns
unchanged with a `v2_empty_input` diagnostic; otherwise the input is clipped
to `[-1, 1]` and passed through DC removal, high-pass filter, noise
suppression, a mask-aware noise-floor estimate, the loudness stage, the
dynamics stage and the limiter, with final output metrics appended. -/
noncomputable def process (env : PluginEnv) (cfg : EnhancementV2Config) (signal : List ℝ)
    (sample_rate : ℤ) (speech_mask : Option (List Bool)) : List ℝ × Stats :=
  let stats0 : Stats :=
    [("v2_mode", .str cfg.mode), ("ns_engine_requested", .str cfg.ns_engine),
     ("loudness_strategy_requested", .str cfg.loudness_strategy),
     ("dynamics_requested", .str cfg.dynamics)]
  if signal.length = 0 then (signal, stats0 ++ [("v2_empty_input", .bool true)])
  else
    let work0 := signal.map (fun x => clamp x (-1.0) 1.0)
    let p1 := apply_dc_removal work0
    let p2 := apply_high_pass_filter p1.1 cfg.hpf_cutoff_hz sample_rate
    let p3 := apply_noise_suppression env cfg p2.1 sample_rate
    let noiseStats : Stats :=
      match speech_mask with
      | some m =>
        if m.length = p3.1.length ∧ m.contains false then
          [("noise_estimate_db", .real (np_round_to (estimate_rms_dbfs (maskSelect p3.1 m false)) 2))]
        else [("noise_estimate_db", .real (np_round_to (estimate_noise_floor_db p3.1) 2))]
      | none => [("noise_estimate_db", .real (np_round_to (estimate_noise_floor_db p3.1) 2))]
    let p4 := apply_loudness_stage env cfg p3.1 sample_rate speech_mask
    let p5 := apply_dynamics_stage cfg p4.1
    let p6 := apply_limiter cfg p5.1 false none
    let finalStats : Stats :=
      [("output_rms_dbfs", .real (np_round_to (estimate_rms_dbfs p6.1) 2)),
       ("output_peak_dbfs", .real (np_round_to (estimate_peak_dbfs p6.1) 2)),
       ("clipping_sample_ratio",
        .real (np_round_to (((p6.1.filter (fun x => 0.999 ≤ |x|)).length : ℝ) / p6.1.length) 6))]
    (p6.1, stats0 ++ p1.2 ++ p2.2 ++ p3.2 ++ noiseStats ++ p4.2 ++ p5.2 ++ p6.2 ++ finalStats)

/-! ### Theorems -/

/-- C3: Empty-input short-circuit. For every plugin environment,
configuration, sample rate and optional mask, `process` on the empty
waveform returns the input unchanged with exactly the four request-echo
entries plus a single `v2_empty_input = true` diagnostic entry — no pipeline
stage executes or contributes any diagnostic. -/
theorem c3_empty_input_short_circuit (env : PluginEnv) (cfg : EnhancementV2Config)
    (sample_rate : ℤ) (speech_mask : Option (List Bool)) :
    process env cfg [] sample_rate speech_mask =
      ([], [("v2_mode", .str cfg.mode), ("ns_engine_requested", .str cfg.ns_engine),
            ("loudness_strategy_requested", .str cfg.loudness_strategy),
            ("dynamics_requested", .str cfg.dynamics), ("v2_empty_input", .bool true)]) ∧
    (process env cfg [] sample_rate speech_mask).2.countP
      (fun kv => kv.1 == "v2_empty_input") = 1 := by
  have h : process env cfg [] sample_rate speech_mask =
      ([], [("v2_mode", .str cfg.mode), ("ns_engine_requested", .str cfg.ns_engine),
            ("loudness_strategy_requested", .str cfg.loudness_strategy),
            ("dynamics_requested", .str cfg.dynamics), ("v2_empty_input", .bool true)]) := by
    simp [process]
  exact ⟨h, by rw [h]; rfl⟩

/-- C10: Implicit sub-frame pass-through. When the webrtc backend module is
available and selected, every non-empty signal shorter than one 10 ms frame
is returned unchanged with diagnostics `ns_backend = "webrtc_apm"` and
`ns_frames_processed = 0`; the result is a constant independent of the
backend's behaviour, so no (zero-padded) frame is ever submitted to it. -/
theorem c10_subframe_passthrough (env : PluginEnv) (cfg : EnhancementV2Config)
    (signal : List ℝ) (sample_rate : ℤ) (backend : NsBackend)
    (havail : env.webrtc_apm = some backend) (hsel : cfg.ns_engine = "webrtc")
    (hne : 0 < signal.length) (hshort : signal.length < ns_frame_size sample_rate) :
    apply_noise_suppression env cfg signal sample_rate =
      (signal, [("ns_backend", .str "webrtc_apm"), ("ns_frames_processed", .int 0)]) := by
  have _hne := hne
  simp [apply_noise_suppression, hsel, havail, hshort]

/-- A backend whose per-frame processing always succeeds with an empty
payload; used only to instantiate environment-quantified theorems. -/
def okBackend : NsBackend := ⟨.ok (), fun _ _ => .ok []⟩

/-- A plugin environment in which only the webrtc module is available. -/
def envWebrtcOnly : PluginEnv := { webrtc_apm := some okBackend }

/-- The default engine configuration (all dataclass defaults). -/
def cfgDefault : EnhancementV2Config := {}

/-- At 16 kHz a 10 ms frame is 160 samples. -/
theorem ns_frame_size_16000 : ns_frame_size 16000 = 160 := by
  norm_num [ns_frame_size, roundHalfEvenQ]; rfl

theorem c10_subframe_passthrough_witness :
    envWebrtcOnly.webrtc_apm = some okBackend ∧ cfgDefault.ns_engine = "webrtc" ∧
    0 < [(0 : ℝ)].length ∧ [(0 : ℝ)].length < ns_frame_size 16000 ∧
    apply_noise_suppression envWebrtcOnly cfgDefault [(0 : ℝ)] 16000 =
      ([(0 : ℝ)], [("ns_backend", .str "webrtc_apm"), ("ns_frames_processed", .int 0)]) :=
  ⟨rfl, rfl, by decide, by rw [ns_frame_size_16000]; decide,
    c10_subframe_passthrough envWebrtcOnly cfgDefault [(0 : ℝ)] 16000 okBackend rfl rfl
      (by decide) (by rw [ns_frame_size_16000]; decide)⟩

/-- Round half away from zero — the rounding mode the spec claims for the
PCM16 conversion (for comparison with the source's banker's rounding). -/
noncomputable def roundHalfAwayR (x : ℝ) : ℤ :=
  if 0 ≤ x then ⌊x + 1 / 2⌋ else -⌊-x + 1 / 2⌋

/-- The PCM16 conversion as the spec words it: "round-half-away-from-zero,
clamp to int16 range". -/
noncomputable def specPcm16 (x : ℝ) : ℤ :=
  max (-32768) (min 32767 (roundHalfAwayR (x * 32767)))

theorem le_clamp (v lo hi : ℝ) : lo ≤ clamp v lo hi := le_max_left _ _

theorem clamp_le (v lo hi : ℝ) (h : lo ≤ hi) : clamp v lo hi ≤ hi :=
  max_le h (min_le_left _ _)

theorem clamp_eq_self (v lo hi : ℝ) (h1 : lo ≤ v) (h2 : v ≤ hi) : clamp v lo hi = v := by
  unfold clamp
  rw [min_eq_right h2, max_eq_right h1]

/-- Banker's rounding lands within one half of its argument. -/
theorem roundHalfEvenR_dist (y : ℝ) : |(roundHalfEvenR y : ℝ) - y| ≤ 1 / 2 := by
  have h1 : (⌊y⌋ : ℝ) ≤ y := Int.floor_le y
  have h2 : y < ⌊y⌋ + 1 := Int.lt_floor_add_one y
  simp only [roundHalfEvenR]
  split_ifs with ha hb hc <;> push_cast <;> rw [abs_le] <;> constructor <;> linarith

/-- C7 (amended): in the webrtc path every frame sample is converted to PCM16
by clamping to `[-1, 1]`, scaling by 32767, and rounding to the nearest
integer with ties to even (`np.round`), which always lies strictly inside
the int16 range; every returned PCM16 sample is converted back to float by
dividing by 32768. -/
theorem c7_pcm16_roundtrip (signal : List ℝ) :
    float_to_pcm16 signal =
      signal.map (fun x => roundHalfEvenR (clamp x (-1.0) 1.0 * 32767.0)) ∧
    (∀ v ∈ float_to_pcm16 signal, -32768 < v ∧ v ≤ 32767 ∧
      ∃ x ∈ signal, |(v : ℝ) - clamp x (-1.0) 1.0 * 32767.0| ≤ 1 / 2) ∧
    ∀ w : ℤ, pcm16_to_float w = (w : ℝ) / 32768 := by
  refine ⟨rfl, ?_, fun w => by norm_num [pcm16_to_float]⟩
  intro v hv
  rw [float_to_pcm16, List.mem_map] at hv
  obtain ⟨x, hx, rfl⟩ := hv
  set y : ℝ := clamp x (-1.0) 1.0 * 32767.0 with hy
  have hylo : -32767 ≤ y := by
    have := le_clamp x (-1.0) 1.0
    nlinarith [le_clamp x (-1.0) 1.0]
  have hyhi : y ≤ 32767 := by
    nlinarith [clamp_le x (-1.0) 1.0 (by norm_num)]
  have hdist := roundHalfEvenR_dist y
  rw [abs_le] at hdist
  refine ⟨?_, ?_, x, hx, by rw [abs_le]; exact hdist⟩
  · have : (-32768 : ℝ) < (roundHalfEvenR y : ℝ) := by linarith
    exact_mod_cast this
  · have : (roundHalfEvenR y : ℝ) < 32768 := by linarith
    have h := Int.lt_iff_add_one_le.mp (by exact_mod_cast this : roundHalfEvenR y < (32768 : ℤ))
    omega

/-- C7 (counterexample): the source rounds half to even, not half away from
zero. At sample `1/65534` the scaled value is exactly `1/2`: the code emits
PCM value 0, while the spec's round-half-away-from-zero conversion gives 1. -/
theorem c7_pcm16_counterexample :
    float_to_pcm16 [(1 : ℝ) / 65534] = [0] ∧ specPcm16 ((1 : ℝ) / 65534) = 1 := by
  have hclamp : clamp ((1 : ℝ) / 65534) (-1.0) 1.0 = 1 / 65534 :=
    clamp_eq_self _ _ _ (by norm_num) (by norm_num)
  have hprod : clamp ((1 : ℝ) / 65534) (-1.0) 1.0 * 32767.0 = 1 / 2 := by
    rw [hclamp]; norm_num
  have hfloor : ⌊(1 : ℝ) / 2⌋ = 0 := by
    rw [Int.floor_eq_iff]; norm_num
  constructor
  · show [roundHalfEvenR (clamp ((1 : ℝ) / 65534) (-1.0) 1.0 * 32767.0)] = [0]
    rw [hprod]
    simp only [roundHalfEvenR]
    rw [hfloor]
    norm_num
  · simp only [specPcm16, roundHalfAwayR]
    have : (1 : ℝ) / 65534 * 32767 = 1 / 2 := by norm_num
    rw [this]
    have hone : ⌊(1 : ℝ) / 2 + 1 / 2⌋ = 1 := by
      rw [Int.floor_eq_iff]; norm_num
    rw [if_pos (by norm_num : (0 : ℝ) ≤ 1 / 2), hone]
    norm_num

theorem nat_lor_one_odd (m : ℕ) : Odd (m ||| 1) := by
  rw [Nat.odd_iff]
  have h : (m ||| 1).testBit 0 = true := by
    rw [Nat.testBit_or]
    simp [Nat.testBit_zero]
  rw [Nat.testBit_zero] at h
  simpa using h

theorem nat_ldiff_one_even (m : ℕ) : Even (Nat.ldiff m 1) := by
  rw [Nat.even_iff]
  have h : (Nat.ldiff m 1).testBit 0 = false := by
    rw [Nat.testBit_ldiff]
    simp [Nat.testBit_zero]
  rw [Nat.testBit_zero] at h
  simp at h
  omega

/-- Python's `w | 1` always produces an odd integer. -/
theorem int_lor_one_odd (w : ℤ) : Odd (Int.lor w 1) := by
  cases w with
  | ofNat m =>
    have h : Int.lor (Int.ofNat m) 1 = Int.ofNat (m ||| 1) := rfl
    rw [h]
    have hm := nat_lor_one_odd m
    rw [Int.ofNat_eq_natCast, Int.odd_coe_nat]
    exact hm
  | negSucc m =>
    have h : Int.lor (Int.negSucc m) 1 = Int.negSucc (Nat.ldiff m 1) := rfl
    rw [h, Int.negSucc_eq, odd_neg]
    exact ((Int.even_coe_nat (Nat.ldiff m 1)).mpr (nat_ldiff_one_even m)).add_one

/-- The kernel length is odd and at least 3. -/
theorem smoothKernelLen_odd_ge (window : ℤ) :
    Odd (smoothKernelLen window) ∧ 3 ≤ smoothKernelLen window := by
  have h3 : (3 : ℤ) ≤ max 3 (Int.lor window 1) := le_max_left _ _
  have hnn : (0 : ℤ) ≤ max 3 (Int.lor window 1) := by linarith
  constructor
  · rw [smoothKernelLen, ← Int.odd_coe_nat, Int.toNat_of_nonneg hnn]
    rcases max_cases 3 (Int.lor window 1) with ⟨h, _⟩ | ⟨h, _⟩
    · rw [h]; exact ⟨1, by ring⟩
    · rw [h]; exact int_lor_one_odd window
  · have := Int.toNat_le_toNat h3
    simpa [smoothKernelLen] using this

/-- The normalised Gaussian kernel sums to exactly 1. -/
theorem gaussKernel_sum_one (window : ℤ) :
    ∑ j ∈ Finset.range (smoothKernelLen window), gaussKernel window j = 1 := by
  have hL := (smoothKernelLen_odd_ge window).2
  have hpos : 0 < ∑ i ∈ Finset.range (smoothKernelLen window), gaussRaw window i := by
    apply Finset.sum_pos
    · intro i _
      simp only [gaussRaw]
      exact Real.exp_pos _
    · exact ⟨0, Finset.mem_range.mpr (by omega)⟩
  simp only [gaussKernel]
  rw [← Finset.sum_div, div_self (ne_of_gt hpos)]

theorem headI_replicate (n : ℕ) (c : ℝ) (hn : 1 ≤ n) : (List.replicate n c).headI = c := by
  cases n with
  | zero => omega
  | succ m => rfl

theorem getLastD_replicate (n : ℕ) (c : ℝ) (hn : 1 ≤ n) :
    (List.replicate n c).getLastD 0 = c := by
  cases n with
  | zero => omega
  | succ m => rw [List.replicate_succ']; simp

/-- Edge-padding a constant sequence yields a constant sequence. -/
theorem smoothPadded_replicate (window : ℤ) (n : ℕ) (c : ℝ) (hn : 1 ≤ n) :
    smoothPadded (List.replicate n c) window =
      List.replicate (smoothKernelLen window / 2 + n + smoothKernelLen window / 2) c := by
  simp only [smoothPadded, headI_replicate n c hn, getLastD_replicate n c hn]
  rw [← List.replicate_add, ← List.replicate_add]

theorem getD_replicate_of_lt (m idx : ℕ) (c : ℝ) (h : idx < m) :
    (List.replicate m c).getD idx 0 = c := by
  rw [List.getD_eq_getElem?_getD, List.getElem?_replicate, if_pos h]
  rfl

/-- C9: Curve smoother invariants. For every window parameter: (i) smoothing
a constant sequence of `N ≥ 1` identical values returns the same constant
sequence (kernel normalisation invariant); (ii) the smoothed output always
has the same length as the input. -/
theorem c9_smooth_curve_invariants (window : ℤ) :
    (∀ (n : ℕ) (c : ℝ), 1 ≤ n →
      smooth_curve (List.replicate n c) window = List.replicate n c) ∧
    (∀ values : List ℝ, (smooth_curve values window).length = values.length) := by
  obtain ⟨hodd, hge⟩ := smoothKernelLen_odd_ge window
  rw [Nat.odd_iff] at hodd
  have hlen : ∀ values : List ℝ, (smooth_curve values window).length = values.length := by
    intro values
    by_cases h : values.length ≤ 1
    · rw [smooth_curve, if_pos h]
    · rw [smooth_curve, if_neg h]
      simp only [List.length_ofFn, smoothPadded, List.length_append, List.length_replicate]
      omega
  refine ⟨?_, hlen⟩
  intro n c hn
  by_cases h : (List.replicate n c).length ≤ 1
  · rw [smooth_curve, if_pos h]
  · have hn2 : 2 ≤ n := by simpa using h
    rw [smooth_curve, if_neg h]
    apply List.ext_getElem
    · simp only [List.length_ofFn, List.length_replicate, smoothPadded,
        List.length_append]
      omega
    · intro i h1 h2
      rw [List.getElem_ofFn, List.getElem_replicate]
      dsimp only
      have hi : i < n := by simpa using h2
      have hsum : ∀ j ∈ Finset.range (smoothKernelLen window),
          (smoothPadded (List.replicate n c) window).getD
            (i + (smoothKernelLen window - 1 - j)) 0 * gaussKernel window j =
          c * gaussKernel window j := by
        intro j hj
        rw [Finset.mem_range] at hj
        rw [smoothPadded_replicate window n c hn]
        rw [getD_replicate_of_lt _ _ _ (by omega)]
      rw [Finset.sum_congr rfl hsum, ← Finset.mul_sum, gaussKernel_sum_one, mul_one]

theorem c9_smooth_curve_invariants_witness :
    (1 : ℕ) ≤ 3 ∧ smooth_curve (List.replicate 3 (2 : ℝ)) 5 = List.replicate 3 (2 : ℝ) :=
  ⟨by norm_num, (c9_smooth_curve_invariants 5).1 3 2 (by norm_num)⟩

/-- C5: RMS loudness strategy. For every configuration and non-empty signal,
the rms strategy applies the uniform linear gain `10^(g/20)` where
`g = clamp(target - measuredRMS, 0, maxGainDb)`; `g ≥ 0` (never attenuates);
the target is −24 dBFS for `fast_dsp`, `custom` and any unknown mode and
−22 dBFS for `high_quality`; and when the measured RMS is exactly −30 dBFS
under `fast_dsp` with `maxGainDb = 18`, the applied gain is exactly +6 dB. -/
theorem c5_rms_strategy (cfg : EnhancementV2Config) (signal : List ℝ)
    (hne : signal ≠ []) :
    0 ≤ rms_gain_db cfg signal ∧
    (apply_rms_target cfg signal).1 =
      signal.map (fun x => x * (10 : ℝ) ^ (rms_gain_db cfg signal / 20)) ∧
    rms_gain_db cfg signal =
      clamp (rms_target_db cfg.mode - estimate_rms_dbfs signal) 0.0
        cfg.targets.max_gain_db ∧
    rms_target_db "fast_dsp" = -24 ∧ rms_target_db "custom" = -24 ∧
    rms_target_db "high_quality" = -22 ∧
    (∀ mode : String, mode ≠ "fast_dsp" → mode ≠ "high_quality" → mode ≠ "custom" →
      rms_target_db mode = -24) ∧
    (cfg.mode = "fast_dsp" → cfg.targets.max_gain_db = 18 →
      estimate_rms_dbfs signal = -30 → rms_gain_db cfg signal = 6) := by
  have _hne := hne
  refine ⟨?_, rfl, rfl, by rw [rms_target_db, if_pos rfl]; norm_num,
    by rw [rms_target_db, if_neg (by decide), if_neg (by decide), if_pos rfl]; norm_num,
    by rw [rms_target_db, if_neg (by decide), if_pos rfl]; norm_num, ?_, ?_⟩
  · rw [rms_gain_db, clamp]
    exact le_trans (by norm_num) (le_max_left 0.0 _)
  · intro mode h1 h2 h3
    rw [rms_target_db, if_neg h1, if_neg h2, if_neg h3]
    norm_num
  · intro hm hg hrms
    rw [rms_gain_db, hm, hg, hrms, rms_target_db, if_pos rfl]
    norm_num [clamp]

/-- The constant signal at amplitude `10^(-3/2)` has RMS exactly −30 dBFS. -/
theorem estimate_rms_dbfs_neg30 :
    estimate_rms_dbfs [(10 : ℝ) ^ (-(3 : ℝ) / 2)] = -30 := by
  have h10 : (0 : ℝ) ≤ 10 := by norm_num
  have hsq : ((10 : ℝ) ^ (-(3 : ℝ) / 2)) ^ (2 : ℕ) = (10 : ℝ) ^ (-(3 : ℝ)) := by
    rw [← Real.rpow_natCast ((10 : ℝ) ^ (-(3 : ℝ) / 2)) 2, ← Real.rpow_mul h10]
    norm_num
  have hmean : listMean [((10 : ℝ) ^ (-(3 : ℝ) / 2)) ^ (2 : ℕ)] =
      (10 : ℝ) ^ (-(3 : ℝ)) := by
    rw [listMean]
    simp [hsq]
  have hsqrt : Real.sqrt ((10 : ℝ) ^ (-(3 : ℝ))) = (10 : ℝ) ^ (-(3 : ℝ) / 2) := by
    rw [Real.sqrt_eq_rpow, ← Real.rpow_mul h10]
    norm_num
  have hsmall : (1e-7 : ℝ) ≤ (10 : ℝ) ^ (-(3 : ℝ) / 2) := by
    have h7 : (1e-7 : ℝ) = (10 : ℝ) ^ (-(7 : ℝ)) := by
      rw [Real.rpow_neg h10, show ((7 : ℝ)) = ((7 : ℕ) : ℝ) by norm_num,
        Real.rpow_natCast]
      norm_num
    rw [h7]
    exact (Real.rpow_le_rpow_left_iff (by norm_num)).mpr (by norm_num)
  rw [estimate_rms_dbfs]
  rw [if_neg (by simp)]
  simp only [List.map_cons, List.map_nil]
  rw [hmean, hsqrt, max_eq_left hsmall, log10,
    Real.logb_rpow (by norm_num) (by norm_num)]
  norm_num

theorem c5_rms_strategy_witness :
    ([(10 : ℝ) ^ (-(3 : ℝ) / 2)] ≠ ([] : List ℝ)) ∧
    rms_gain_db cfgDefault [(10 : ℝ) ^ (-(3 : ℝ) / 2)] = 6 :=
  ⟨by simp,
    (c5_rms_strategy cfgDefault [(10 : ℝ) ^ (-(3 : ℝ) / 2)] (by simp)).2.2.2.2.2.2.2
      rfl (by norm_num [cfgDefault]) estimate_rms_dbfs_neg30⟩

theorem dynMaskRestore_nonspeech (signal gained : List ℝ) (m : List Bool) (i : ℕ)
    (hlen : m.length = gained.length) (hi : i < gained.length)
    (hmask : m.getD i true = false) :
    (dynMaskRestore signal gained (some m)).getD i 0 = signal.getD i 0 := by
  rw [dynMaskRestore]
  simp only [if_pos hlen]
  rw [List.getD_eq_getElem?_getD, List.getElem?_eq_getElem (by simpa using hi),
    List.getElem_ofFn]
  simp only [Option.getD_some]
  rw [List.getD_eq_getElem?_getD] at hmask
  simp [hmask]

theorem one_le_dynFrameLen (sample_rate : ℤ) (ms : ℚ) : 1 ≤ dynFrameLen sample_rate ms := by
  rw [dynFrameLen]
  have h : (1 : ℤ) ≤ max 1 (roundHalfEvenQ ((sample_rate : ℚ) * (ms / 1000))) :=
    le_max_left _ _
  omega

theorem dynFrameGains_length (signal : List ℝ) (frame_len : ℕ)
    (gate_db max_gain_linear peak_target : ℝ) :
    (dynFrameGains signal frame_len gate_db max_gain_linear peak_target).length =
      (signal.length + frame_len - 1) / frame_len := by
  simp [dynFrameGains]

/-- C6: Speech-mask frame effect. For every configuration, input signal and
boolean speech mask of the same length, the dynaudnorm-like strategy returns
every non-speech sample (mask = false) numerically identical to the
corresponding input sample. -/
theorem c6_dynaudnorm_nonspeech_identity (cfg : EnhancementV2Config) (signal : List ℝ)
    (sample_rate : ℤ) (m : List Bool) (i : ℕ)
    (hlen : m.length = signal.length) (hi : i < signal.length)
    (hmask : m.getD i true = false) :
    (apply_dynaudnorm_like cfg signal sample_rate (some m)).1.getD i 0 =
      signal.getD i 0 := by
  have hfl := one_le_dynFrameLen sample_rate (if cfg.mode = "high_quality" then 500 else 250)
  have hne : (dynFrameGains signal
      (dynFrameLen sample_rate (if cfg.mode = "high_quality" then 500 else 250))
      (estimate_noise_floor_db signal + 8.0)
      ((10 : ℝ) ^ (min cfg.targets.max_gain_db 10.0 / 20)) 0.95).length ≠ 0 := by
    rw [dynFrameGains_length]
    set fl := dynFrameLen sample_rate (if cfg.mode = "high_quality" then 500 else 250)
    have h1 : 1 ≤ (signal.length + fl - 1) / fl := by
      rw [Nat.one_le_div_iff (by omega)]
      omega
    omega
  simp only [apply_dynaudnorm_like]
  rw [if_neg hne]
  apply dynMaskRestore_nonspeech
  · rw [hlen, dynApplyGains, List.length_ofFn]
  · rw [dynApplyGains, List.length_ofFn]
    exact hi
  · exact hmask

theorem c6_dynaudnorm_nonspeech_identity_witness :
    ([false].length = [(1 : ℝ) / 2].length) ∧ 0 < [(1 : ℝ) / 2].length ∧
    ([false].getD 0 true = false) ∧
    (apply_dynaudnorm_like cfgDefault [(1 : ℝ) / 2] 16000 (some [false])).1.getD 0 0 =
      [(1 : ℝ) / 2].getD 0 0 :=
  ⟨rfl, by decide, rfl,
    c6_dynaudnorm_nonspeech_identity cfgDefault [(1 : ℝ) / 2] 16000 [false] 0 rfl
      (by decide) rfl⟩

theorem compLoop_length (attack release max_gain : ℝ) :
    ∀ (signal : List ℝ) (env : ℝ),
      (compLoop attack release max_gain env signal).length = signal.length := by
  intro signal
  induction signal with
  | nil => intro env; rfl
  | cons x xs ih =>
    intro env
    simp only [compLoop, List.length_cons]
    rw [ih]

/-- Every gain emitted by the compressor loop is clamped to `[1, max_gain]`,
and each output sample is the input sample times its gain. -/
theorem compLoop_getD (attack release max_gain : ℝ) (hmg : 1 ≤ max_gain) :
    ∀ (signal : List ℝ) (env : ℝ) (i : ℕ), i < signal.length →
      ∃ g : ℝ, 1 ≤ g ∧ g ≤ max_gain ∧
        (compLoop attack release max_gain env signal).getD i (0, 0) =
          (signal.getD i 0 * g, g) := by
  intro signal
  induction signal with
  | nil => intro env i hi; simp at hi
  | cons x xs ih =>
    intro env i hi
    cases i with
    | zero =>
      simp only [compLoop, List.getD_cons_zero]
      refine ⟨_, ?_, ?_, rfl⟩
      · rw [clamp]
        exact le_trans (by norm_num) (le_max_left _ _)
      · rw [clamp]
        exact max_le (by linarith) (min_le_left _ _)
    | succ j =>
      simp only [compLoop, List.getD_cons_succ]
      exact ih _ j (by simpa using hi)

/-- The compressor gain ceiling is at least 1 when `max_gain_db ≥ 0`. -/
theorem one_le_compMaxGain (cfg : EnhancementV2Config)
    (hmg : 0 ≤ cfg.targets.max_gain_db) : 1 ≤ compMaxGain cfg := by
  rw [compMaxGain]
  rw [show (1 : ℝ) = (10 : ℝ) ^ (0 : ℝ) from (Real.rpow_zero 10).symm]
  apply (Real.rpow_le_rpow_left_iff (by norm_num)).mpr
  have h18 : (0 : ℝ) ≤ min cfg.targets.max_gain_db 18.0 := le_min hmg (by norm_num)
  linarith

/-- C4: Upward compressor gain bounds. Given `maxGainDb ≥ 0`, every
per-sample gain applied by the upward compressor lies in
`[1, 10^(min(maxGainDb, 18)/20)]` (it never attenuates any sample), each
output sample equals the input sample times its gain, and therefore
`|input[i]| ≤ |output[i]| ≤ ceiling * |input[i]|` for every index. -/
theorem c4_upward_compressor_bounds (cfg : EnhancementV2Config) (signal : List ℝ)
    (hmg : 0 ≤ cfg.targets.max_gain_db) :
    ∀ i < signal.length,
      1 ≤ ((compPairs cfg signal).getD i (0, 0)).2 ∧
      ((compPairs cfg signal).getD i (0, 0)).2 ≤ compMaxGain cfg ∧
      (apply_upward_compressor cfg signal).1.getD i 0 =
        signal.getD i 0 * ((compPairs cfg signal).getD i (0, 0)).2 ∧
      |signal.getD i 0| ≤ |(apply_upward_compressor cfg signal).1.getD i 0| ∧
      |(apply_upward_compressor cfg signal).1.getD i 0| ≤
        compMaxGain cfg * |signal.getD i 0| := by
  intro i hi
  obtain ⟨g, hg1, hg2, hpair⟩ :=
    compLoop_getD (Real.exp (-1 / max 1.0 ((20.0 / 1000) * 16000)))
      (Real.exp (-1 / max 1.0 ((250.0 / 1000) * 16000))) (compMaxGain cfg)
      (one_le_compMaxGain cfg hmg) signal 0.0 i hi
  have hpair2 : (compPairs cfg signal).getD i (0, 0) = (signal.getD i 0 * g, g) := hpair
  have hlenp : (compPairs cfg signal).length = signal.length :=
    compLoop_length _ _ _ signal 0.0
  have hi2 : i < (compPairs cfg signal).length := by rw [hlenp]; exact hi
  rw [List.getD_eq_getElem?_getD, List.getElem?_eq_getElem hi2,
    Option.getD_some] at hpair2
  have houti : (apply_upward_compressor cfg signal).1.getD i 0 =
      signal.getD i 0 * g := by
    show ((compPairs cfg signal).map Prod.fst).getD i 0 = _
    rw [List.getD_eq_getElem?_getD,
      List.getElem?_eq_getElem (by simpa [hlenp] using hi), List.getElem_map,
      hpair2, Option.getD_some]
  have habs : |signal.getD i 0 * g| = |signal.getD i 0| * g := by
    rw [abs_mul, abs_of_nonneg (by linarith : (0 : ℝ) ≤ g)]
  rw [List.getD_eq_getElem?_getD, List.getElem?_eq_getElem hi2, Option.getD_some,
    hpair2]
  refine ⟨hg1, hg2, by rw [houti], ?_, ?_⟩
  · rw [houti, habs]
    exact le_mul_of_one_le_right (abs_nonneg _) hg1
  · rw [houti, habs, mul_comm (compMaxGain cfg) _]
    exact mul_le_mul_of_nonneg_left hg2 (abs_nonneg _)

theorem c4_upward_compressor_bounds_witness :
    (0 : ℝ) ≤ cfgDefault.targets.max_gain_db ∧
    ∀ i < [(1 : ℝ) / 2].length,
      1 ≤ ((compPairs cfgDefault [(1 : ℝ) / 2]).getD i (0, 0)).2 ∧
      ((compPairs cfgDefault [(1 : ℝ) / 2]).getD i (0, 0)).2 ≤ compMaxGain cfgDefault ∧
      (apply_upward_compressor cfgDefault [(1 : ℝ) / 2]).1.getD i 0 =
        [(1 : ℝ) / 2].getD i 0 * ((compPairs cfgDefault [(1 : ℝ) / 2]).getD i (0, 0)).2 ∧
      |[(1 : ℝ) / 2].getD i 0| ≤
        |(apply_upward_compressor cfgDefault [(1 : ℝ) / 2]).1.getD i 0| ∧
      |(apply_upward_compressor cfgDefault [(1 : ℝ) / 2]).1.getD i 0| ≤
        compMaxGain cfgDefault * |[(1 : ℝ) / 2].getD i 0| :=
  ⟨by norm_num [cfgDefault],
    c4_upward_compressor_bounds cfgDefault [(1 : ℝ) / 2] (by norm_num [cfgDefault])⟩

/-- If the backend raises on any remaining frame, the frame loop returns the
original signal with a `process_failed` diagnostic, discarding every
partially processed frame. -/
theorem nsRunFrames_error (backend : NsBackend) (orig : List ℝ) (frame_size : ℕ)
    (ns_level agc_target agc_level : ℤ) :
    ∀ (frames : List (List ℝ)) (idx : ℕ) (acc : List ℝ),
      (∃ k, k < frames.length ∧ ∃ e,
        backend.processFrame (idx + k) (nsPaddedPcm frame_size (frames.getD k [])) =
          .error e) →
      ∃ e, nsRunFrames backend orig frame_size ns_level agc_target agc_level idx frames acc =
        (orig, [("ns_backend", .str "error"),
                ("ns_error", .str ("process_failed: " ++ e))]) := by
  intro frames
  induction frames with
  | nil =>
    rintro idx acc ⟨k, hk, -⟩
    simp at hk
  | cons f rest ih =>
    rintro idx acc ⟨k, hk, e, herr⟩
    cases hpf : backend.processFrame idx (nsPaddedPcm frame_size f) with
    | error e0 =>
      exact ⟨e0, by simp only [nsRunFrames, hpf]⟩
    | ok payload =>
      cases k with
      | zero =>
        rw [Nat.add_zero, List.getD_cons_zero] at herr
        rw [herr] at hpf
        cases hpf
      | succ k2 =>
        simp only [nsRunFrames, hpf]
        apply ih
        refine ⟨k2, by simpa using hk, e, ?_⟩
        rw [show idx + 1 + k2 = idx + (k2 + 1) by omega]
        simpa using herr

/-- C2: Noise-suppression atomicity. With the webrtc backend selected and
available and the signal at least one frame long, if the backend raises
during initialisation or while processing any frame, the stage returns the
original signal unmodified together with an `ns_backend = "error"` /
`ns_error` diagnostic carrying the failure description; no partially
processed frame is committed, and (the stage being a total function) no
exception propagates to the caller. -/
theorem c2_ns_atomicity (env : PluginEnv) (cfg : EnhancementV2Config) (signal : List ℝ)
    (sample_rate : ℤ) (backend : NsBackend)
    (havail : env.webrtc_apm = some backend) (hsel : cfg.ns_engine = "webrtc")
    (hlong : ns_frame_size sample_rate ≤ signal.length)
    (hfail : (∃ e, backend.init = .error e) ∨
      (backend.init = .ok () ∧
        ∃ k, k < (nsFrames (ns_frame_size sample_rate) signal).length ∧ ∃ e,
          backend.processFrame k
            (nsPaddedPcm (ns_frame_size sample_rate)
              ((nsFrames (ns_frame_size sample_rate) signal).getD k [])) = .error e)) :
    ∃ e, apply_noise_suppression env cfg signal sample_rate =
        (signal, [("ns_backend", .str "error"),
                  ("ns_error", .str ("init_failed: " ++ e))]) ∨
      apply_noise_suppression env cfg signal sample_rate =
        (signal, [("ns_backend", .str "error"),
                  ("ns_error", .str ("process_failed: " ++ e))]) := by
  rcases hfail with ⟨e, hinit⟩ | ⟨hinit, hframes⟩
  · refine ⟨e, Or.inl ?_⟩
    simp [apply_noise_suppression, hsel, havail, not_lt.mpr hlong, hinit]
  · obtain ⟨e, hrun⟩ := nsRunFrames_error backend signal (ns_frame_size sample_rate)
      (map_ns_level cfg) (map_agc_params cfg).1 (map_agc_params cfg).2
      (nsFrames (ns_frame_size sample_rate) signal) 0 []
      (by
        obtain ⟨k, hk, e, herr⟩ := hframes
        exact ⟨k, hk, e, by simpa using herr⟩)
    refine ⟨e, Or.inr ?_⟩
    simp only [apply_noise_suppression, hsel, havail]
    simp only [String.reduceEq, if_false, ite_false, reduceIte]
    simp [not_lt.mpr hlong, hinit, hrun]

/-- A backend whose initialisation succeeds but whose per-frame processing
always raises. -/
def failBackend : NsBackend := ⟨.ok (), fun _ _ => .error "boom"⟩

/-- A plugin environment holding only the failing webrtc backend. -/
def envFailBackend : PluginEnv := { webrtc_apm := some failBackend }

/-- At 100 Hz a 10 ms frame is a single sample. -/
theorem ns_frame_size_100 : ns_frame_size 100 = 1 := by
  norm_num [ns_frame_size, roundHalfEvenQ]

theorem c2_ns_atomicity_witness :
    envFailBackend.webrtc_apm = some failBackend ∧ cfgDefault.ns_engine = "webrtc" ∧
    ns_frame_size 100 ≤ [(0 : ℝ)].length ∧
    (failBackend.init = .ok () ∧
      ∃ k, k < (nsFrames (ns_frame_size 100) [(0 : ℝ)]).length ∧ ∃ e,
        failBackend.processFrame k
          (nsPaddedPcm (ns_frame_size 100)
            ((nsFrames (ns_frame_size 100) [(0 : ℝ)]).getD k [])) = .error e) ∧
    (∃ e, apply_noise_suppression envFailBackend cfgDefault [(0 : ℝ)] 100 =
        ([(0 : ℝ)], [("ns_backend", .str "error"),
                     ("ns_error", .str ("init_failed: " ++ e))]) ∨
      apply_noise_suppression envFailBackend cfgDefault [(0 : ℝ)] 100 =
        ([(0 : ℝ)], [("ns_backend", .str "error"),
                     ("ns_error", .str ("process_failed: " ++ e))])) := by
  have hfs := ns_frame_size_100
  have hframes : (nsFrames (ns_frame_size 100) [(0 : ℝ)]).length = 1 := by
    rw [hfs]
    rfl
  refine ⟨rfl, rfl, by rw [hfs]; decide, ⟨rfl, 0, by rw [hframes]; decide, "boom", rfl⟩, ?_⟩
  exact c2_ns_atomicity envFailBackend cfgDefault [(0 : ℝ)] 100 failBackend rfl rfl
    (by rw [hfs]; decide)
    (Or.inr ⟨rfl, 0, by rw [hframes]; decide, "boom", rfl⟩)

/-- An enabled (or forced) limiter hard-clips every output sample to
`[-1, 1]`. -/
theorem apply_limiter_mem_bounds (cfg : EnhancementV2Config) (signal : List ℝ)
    (force : Bool) (thr : Option ℝ) (hen : (force || cfg.limiter.enabled) = true) :
    ∀ x ∈ (apply_limiter cfg signal force thr).1, -1 ≤ x ∧ x ≤ 1 := by
  intro x hx
  rw [apply_limiter] at hx
  rw [if_neg (by simp [hen])] at hx
  simp only [List.mem_map] at hx
  obtain ⟨v, _, rfl⟩ := hx
  constructor
  · have := le_clamp v (-1.0) 1.0
    linarith
  · have := clamp_le v (-1.0) 1.0 (by norm_num)
    linarith

/-- C1 (amended): Clip-safety for limiter-enabled configurations. For every
plugin environment, every configuration whose limiter is enabled, and every
input, sample rate and mask, every sample of the pipeline's final output
(the signal returned by the limiter stage) lies within `[-1, 1]`. -/
theorem c1_clip_safety_limiter_enabled (env : PluginEnv) (cfg : EnhancementV2Config)
    (signal : List ℝ) (sample_rate : ℤ) (speech_mask : Option (List Bool))
    (hen : cfg.limiter.enabled = true) :
    ∀ x ∈ (process env cfg signal sample_rate speech_mask).1, -1 ≤ x ∧ x ≤ 1 := by
  by_cases hempty : signal.length = 0
  · have hnil : signal = [] := List.length_eq_zero.mp hempty
    subst hnil
    rw [process]
    simp
  · intro x hx
    rw [process, if_neg hempty] at hx
    exact apply_limiter_mem_bounds cfg _ false none (by simp [hen]) x hx

/-- The configuration of the C1 counterexample: limiter globally disabled,
noise suppression off, high-pass disabled, flat RMS loudness, upward
compressor dynamics, defaults elsewhere. -/
def cfgNoLimiter : EnhancementV2Config :=
  { ns_engine := "off", loudness_strategy := "rms",
    limiter := { enabled := false }, hpf_cutoff_hz := 0.0 }

/-- An environment with no optional plugin available. -/
def envNone : PluginEnv := {}

/-- The RMS of `[1, -1]` is exactly 0 dBFS. -/
theorem estimate_rms_dbfs_one_negone : estimate_rms_dbfs [1, -1] = 0 := by
  rw [estimate_rms_dbfs, if_neg (by simp)]
  have hmean : listMean (([1, -1] : List ℝ).map (fun x => x ^ 2)) = 1 := by
    rw [listMean]
    norm_num
  rw [hmean, Real.sqrt_one, max_eq_left (by norm_num), log10, Real.logb_one]
  norm_num

/-- With the default 18 dB ceiling and mode `fast_dsp`, `[1, -1]` gets zero
RMS gain. -/
theorem rms_gain_db_one_negone : rms_gain_db cfgNoLimiter [1, -1] = 0 := by
  rw [rms_gain_db, estimate_rms_dbfs_one_negone,
    show cfgNoLimiter.mode = "fast_dsp" from rfl, rms_target_db, if_pos rfl,
    show cfgNoLimiter.targets.max_gain_db = 18.0 from rfl, clamp,
    min_eq_right (by norm_num), max_eq_left (by norm_num)]
  norm_num

theorem loudness_stage_one_negone :
    (apply_loudness_stage envNone cfgNoLimiter [1, -1] 16000 none).1 = [1, -1] := by
  rw [apply_loudness_stage, if_neg (by decide), if_neg (by decide)]
  show (([1, -1] : List ℝ).map
    (fun x => x * (10 : ℝ) ^ (rms_gain_db cfgNoLimiter [1, -1] / 20))) = [1, -1]
  rw [rms_gain_db_one_negone, zero_div, Real.rpow_zero]
  simp

/-- First output sample of the upward compressor on `[1, -1]` with an 18 dB
ceiling: the envelope is still almost empty, so the sample is boosted
strictly above full scale. -/
theorem compressor_head_gt_one :
    1 < (apply_upward_compressor cfgNoLimiter [1, -1]).1.getD 0 0 := by
  have hax : (-1 / max 1.0 ((20.0 / 1000) * 16000) : ℝ) = -1 / 320 := by
    rw [max_eq_right (by norm_num)]
    norm_num
  set A : ℝ := Real.exp (-1 / max 1.0 ((20.0 / 1000) * 16000)) with hA
  have hA1 : 319 / 320 ≤ A := by
    rw [hA, hax]
    have := Real.add_one_le_exp (-1 / 320 : ℝ)
    linarith
  have hApos : 0 < A := Real.exp_pos _
  show 1 < ((compPairs cfgNoLimiter [1, -1]).map Prod.fst).getD 0 0
  rw [compPairs, ← hA]
  simp only [compLoop, List.map_cons, List.getD_cons_zero]
  rw [if_pos (by norm_num : (0.0 : ℝ) < |1|)]
  have henv : A * 0.0 + (1 - A) * |(1 : ℝ)| = 1 - A := by
    rw [abs_one]
    ring
  rw [henv]
  rw [if_pos (by linarith : (1 : ℝ) - A < 0.125)]
  rw [one_mul]
  have hmaxpos : (0 : ℝ) < max (1 - A) 1e-5 :=
    lt_of_lt_of_le (by norm_num) (le_max_right _ _)
  have hmaxle : max (1 - A) 1e-5 ≤ 1 / 320 := max_le (by linarith) (by norm_num)
  have hq : (40 : ℝ) ≤ 0.125 / max (1 - A) 1e-5 := by
    rw [show (40 : ℝ) = 0.125 / (1 / 320) by norm_num]
    exact div_le_div_of_nonneg_left (by norm_num) hmaxpos hmaxle
  have hgr : (1 : ℝ) < (0.125 / max (1 - A) 1e-5) ^ ((1 : ℝ) - 1 / 2.0) := by
    rw [show ((1 : ℝ) - 1 / 2.0) = 1 / 2 by norm_num]
    have h40 : (1 : ℝ) < (40 : ℝ) ^ ((1 : ℝ) / 2) := by
      rw [Real.one_lt_rpow_iff_of_pos (by norm_num)]
      exact Or.inl ⟨by norm_num, by norm_num⟩
    calc (1 : ℝ) < (40 : ℝ) ^ ((1 : ℝ) / 2) := h40
      _ ≤ _ := Real.rpow_le_rpow (by norm_num) hq (by norm_num)
  have hM : (1 : ℝ) < compMaxGain cfgNoLimiter := by
    rw [compMaxGain, show cfgNoLimiter.targets.max_gain_db = 18.0 from rfl,
      min_self, show (18.0 : ℝ) / 20 = 0.9 by norm_num,
      Real.one_lt_rpow_iff_of_pos (by norm_num)]
    exact Or.inl ⟨by norm_num, by norm_num⟩
  rw [clamp]
  exact lt_max_iff.mpr (Or.inr (lt_min_iff.mpr ⟨hM, hgr⟩))

/-- C1 (counterexample): with the limiter disabled in the configuration, the
pipeline's output can exceed full scale — on input `[1, -1]` at 16 kHz the
first output sample is strictly greater than 1, so not every sample of the
signal returned after the limiter stage lies within `[-1, 1]` for every
configuration. -/
theorem c1_clip_safety_counterexample :
    1 < (process envNone cfgNoLimiter [1, -1] 16000 none).1.getD 0 0 := by
  have hwork : (([1, -1] : List ℝ).map (fun x => clamp x (-1.0) 1.0)) = [1, -1] := by
    simp only [List.map_cons, List.map_nil]
    rw [clamp_eq_self 1 (-1.0) 1.0 (by norm_num) (by norm_num),
      clamp_eq_self (-1) (-1.0) 1.0 (by norm_num) (by norm_num)]
  have hdc : (apply_dc_removal [1, -1]).1 = [1, -1] := by
    show (([1, -1] : List ℝ).map (fun x => x - listMean [1, -1])) = [1, -1]
    have hm : listMean [1, -1] = 0 := by
      rw [listMean]
      norm_num
    rw [hm]
    simp
  have hhpf : (apply_high_pass_filter [1, -1] cfgNoLimiter.hpf_cutoff_hz 16000).1 =
      [1, -1] := by
    rw [apply_high_pass_filter,
      if_pos (Or.inr (by rw [show cfgNoLimiter.hpf_cutoff_hz = 0.0 from rfl]; norm_num))]
  have hns : (apply_noise_suppression envNone cfgNoLimiter [1, -1] 16000).1 = [1, -1] := by
    rw [apply_noise_suppression, if_pos (show cfgNoLimiter.ns_engine = "off" from rfl)]
  have hdyn : (apply_dynamics_stage cfgNoLimiter [1, -1]).1 =
      (apply_upward_compressor cfgNoLimiter [1, -1]).1 := by
    rw [apply_dynamics_stage, if_neg (by decide), if_pos (by decide)]
  have hlim : ∀ s : List ℝ, (apply_limiter cfgNoLimiter s false none).1 = s := by
    intro s
    rw [apply_limiter, if_pos (by decide)]
  rw [process, if_neg (by simp)]
  dsimp only
  rw [hwork, hdc, hhpf, hns, loudness_stage_one_negone, hdyn, hlim]
  exact compressor_head_gt_one

theorem limiterGains_length (attack release threshold : ℝ) :
    ∀ (signal : List ℝ) (g0 : ℝ),
      (limiterGains attack release threshold g0 signal).length = signal.length := by
  intro signal
  induction signal with
  | nil => intro g0; rfl
  | cons x xs ih =>
    intro g0
    simp only [limiterGains, List.length_cons]
    rw [ih]

theorem convex_step_bounds (c t g0 : ℝ) (hc0 : 0 ≤ c) (hc1 : c ≤ 1)
    (ht0 : 0 ≤ t) (ht1 : t ≤ 1) (hg0 : 0 ≤ g0) (hg1 : g0 ≤ 1) :
    0 ≤ c * g0 + (1 - c) * t ∧ c * g0 + (1 - c) * t ≤ 1 :=
  ⟨by nlinarith, by nlinarith⟩

/-- Starting from gain 1, every smoothed gain of the limiter stays in
`[0, 1]`: the target gain never exceeds 1 and the smoothing is a convex
combination. -/
theorem limiterGains_bounds (attack release threshold : ℝ)
    (hA0 : 0 ≤ attack) (hA1 : attack ≤ 1) (hR0 : 0 ≤ release) (hR1 : release ≤ 1)
    (hT0 : 0 < threshold) :
    ∀ (signal : List ℝ) (g0 : ℝ), 0 ≤ g0 → g0 ≤ 1 →
      ∀ g ∈ limiterGains attack release threshold g0 signal, 0 ≤ g ∧ g ≤ 1 := by
  intro signal
  induction signal with
  | nil =>
    intro g0 _ _ g hg
    simp [limiterGains] at hg
  | cons x xs ih =>
    intro g0 hg0 hg1 g hg
    have htar0 : 0 ≤ (if |x| ≤ threshold then (1.0 : ℝ) else threshold / max |x| 1e-6) := by
      split_ifs with habs
      · norm_num
      · exact div_nonneg hT0.le (le_trans (by norm_num) (le_max_right _ _))
    have htar1 : (if |x| ≤ threshold then (1.0 : ℝ) else threshold / max |x| 1e-6) ≤ 1 := by
      split_ifs with habs
      · norm_num
      · push_neg at habs
        have hmax : threshold < max |x| 1e-6 := lt_of_lt_of_le habs (le_max_left _ _)
        exact le_of_lt ((div_lt_one (lt_trans hT0 hmax)).mpr hmax)
    have hc0 : 0 ≤ (if (if |x| ≤ threshold then (1.0 : ℝ) else threshold / max |x| 1e-6) < g0
        then attack else release) := by
      split_ifs <;> assumption
    have hc1 : (if (if |x| ≤ threshold then (1.0 : ℝ) else threshold / max |x| 1e-6) < g0
        then attack else release) ≤ 1 := by
      split_ifs <;> assumption
    have hnext := convex_step_bounds _ _ _ hc0 hc1 htar0 htar1 hg0 hg1
    simp only [limiterGains, List.mem_cons] at hg
    rcases hg with rfl | hg
    · exact hnext
    · exact ih _ hnext.1 hnext.2 g hg

/-- Clipping to `[-1, 1]` never increases a sample's magnitude. -/
theorem abs_clamp_le (v : ℝ) : |clamp v (-1.0) 1.0| ≤ |v| := by
  rw [clamp]
  rcases le_total v (-1.0) with h | h
  · rw [min_eq_right (by linarith), max_eq_left h,
      abs_of_nonpos (by norm_num), abs_of_nonpos (by linarith)]
    linarith
  · rcases le_total v 1.0 with h2 | h2
    · rw [min_eq_right h2, max_eq_right h]
    · rw [min_eq_left h2, max_eq_right (by norm_num),
        abs_of_nonneg (by norm_num), abs_of_nonneg (by linarith)]
      linarith

theorem apply_limiter_length (cfg : EnhancementV2Config) (signal : List ℝ)
    (force : Bool) (thr : Option ℝ) :
    (apply_limiter cfg signal force thr).1.length = signal.length := by
  rw [apply_limiter]
  split_ifs
  · dsimp only
    rw [List.length_map, List.length_map, List.length_zip, limiterGains_length, min_self]
  · rfl

/-- The limiter never increases any sample's magnitude (indices past the end
compare the default 0 against the input). -/
theorem apply_limiter_abs_getD_le (cfg : EnhancementV2Config) (signal : List ℝ)
    (force : Bool) (thr : Option ℝ) (i : ℕ) :
    |(apply_limiter cfg signal force thr).1.getD i 0| ≤ |signal.getD i 0| := by
  rw [apply_limiter]
  split_ifs with hdis
  case neg => exact le_rfl
  case pos =>
    dsimp only
    set A := Real.exp (-1 / max 1.0 ((max 0.1 cfg.limiter.attack_ms / 1000) * 16000.0))
      with hA
    set R := Real.exp (-1 / max 1.0 ((max 1.0 cfg.limiter.release_ms / 1000) * 16000.0))
      with hR
    set T := clamp (thr.getD cfg.limiter.threshold) 0.6 0.999 with hT
    have hexp_le_one : ∀ m : ℝ, Real.exp (-1 / max 1.0 m) ≤ 1 := by
      intro m
      apply Real.exp_le_one_iff.mpr
      rw [neg_div]
      apply neg_nonpos_of_nonneg
      have hm : (0 : ℝ) < max 1.0 m := lt_of_lt_of_le (by norm_num) (le_max_left _ _)
      positivity
    have hT0 : (0 : ℝ) < T := lt_of_lt_of_le (by norm_num) (le_clamp _ _ _)
    by_cases hi : i < signal.length
    · have hglen : (limiterGains A R T 1.0 signal).length = signal.length :=
        limiterGains_length A R T signal 1.0
      have hzlen : (signal.zip (limiterGains A R T 1.0 signal)).length = signal.length := by
        rw [List.length_zip, hglen, min_self]
      have hi3 : i < (signal.zip (limiterGains A R T 1.0 signal)).length := by
        rw [hzlen]; exact hi
      have hi2 : i < ((signal.zip (limiterGains A R T 1.0 signal)).map
          (fun p => p.1 * p.2)).length := by
        rw [List.length_map]
        exact hi3
      rw [List.getD_eq_getElem?_getD,
        List.getElem?_eq_getElem (by rw [List.length_map]; exact hi2),
        Option.getD_some, List.getElem_map, List.getElem_map, List.getElem_zip]
      have hi4 : i < (limiterGains A R T 1.0 signal).length := by rw [hglen]; exact hi
      have hgmem : (limiterGains A R T 1.0 signal)[i] ∈
          limiterGains A R T 1.0 signal := List.getElem_mem hi4
      obtain ⟨hg0, hg1⟩ := limiterGains_bounds A R T (Real.exp_pos _).le (hexp_le_one _)
        (Real.exp_pos _).le (hexp_le_one _) hT0 signal 1.0 (by norm_num) (by norm_num)
        _ hgmem
      calc |clamp (signal[i] * (limiterGains A R T 1.0 signal)[i]) (-1.0) 1.0|
          ≤ |signal[i] * (limiterGains A R T 1.0 signal)[i]| := abs_clamp_le _
        _ = |signal[i]| * (limiterGains A R T 1.0 signal)[i] := by
            rw [abs_mul, abs_of_nonneg hg0]
        _ ≤ |signal[i]| * 1 := mul_le_mul_of_nonneg_left hg1 (abs_nonneg _)
        _ = |signal.getD i 0| := by
            rw [mul_one, List.getD_eq_getElem?_getD, List.getElem?_eq_getElem hi,
              Option.getD_some]
    · have hlen2 : (((signal.zip (limiterGains A R T 1.0 signal)).map
          (fun p => p.1 * p.2)).map (fun x => clamp x (-1.0) 1.0)).length =
            signal.length := by
        rw [List.length_map, List.length_map, List.length_zip,
          limiterGains_length, min_self]
      rw [List.getD_eq_getElem?_getD, List.getElem?_eq_none (by rw [hlen2]; omega),
        Option.getD_none, abs_zero]
      exact abs_nonneg _

theorem maxAbs_cons (x : ℝ) (xs : List ℝ) : maxAbs (x :: xs) = max |x| (maxAbs xs) := rfl

theorem maxAbs_nonneg (xs : List ℝ) : 0 ≤ maxAbs xs := by
  induction xs with
  | nil => exact le_rfl
  | cons x xs ih =>
    rw [maxAbs_cons]
    exact le_trans ih (le_max_right _ _)

theorem le_maxAbs_of_mem (x : ℝ) (xs : List ℝ) (h : x ∈ xs) : |x| ≤ maxAbs xs := by
  induction xs with
  | nil => simp at h
  | cons y ys ih =>
    rw [maxAbs_cons]
    rcases List.mem_cons.mp h with rfl | h2
    · exact le_max_left _ _
    · exact le_trans (ih h2) (le_max_right _ _)

theorem maxAbs_le (xs : List ℝ) (c : ℝ) (hc : 0 ≤ c) (h : ∀ x ∈ xs, |x| ≤ c) :
    maxAbs xs ≤ c := by
  induction xs with
  | nil => exact hc
  | cons y ys ih =>
    rw [maxAbs_cons]
    exact max_le (h y (List.mem_cons_self y ys)) (ih (fun x hx => h x (List.mem_cons_of_mem y hx)))

/-- A pointwise magnitude bound gives a peak bound. -/
theorem maxAbs_mono_pointwise (a b : List ℝ) (hlen : a.length = b.length)
    (h : ∀ i, |a.getD i 0| ≤ |b.getD i 0|) : maxAbs a ≤ maxAbs b := by
  apply maxAbs_le _ _ (maxAbs_nonneg b)
  intro x hx
  obtain ⟨i, hi, rfl⟩ := List.mem_iff_getElem.mp hx
  have hib : i < b.length := hlen ▸ hi
  have h1 : a.getD i 0 = a[i] := by
    rw [List.getD_eq_getElem?_getD, List.getElem?_eq_getElem hi, Option.getD_some]
  have h2 : b.getD i 0 = b[i] := by
    rw [List.getD_eq_getElem?_getD, List.getElem?_eq_getElem hib, Option.getD_some]
  calc |a[i]| = |a.getD i 0| := by rw [h1]
    _ ≤ |b.getD i 0| := h i
    _ = |b[i]| := by rw [h2]
    _ ≤ maxAbs b := le_maxAbs_of_mem _ _ (List.getElem_mem hib)

/-- C8 (amended): Limiter monotonicity under repeated application. For every
configuration (enabled, forced or disabled alike) and every signal,
re-limiting an already-limited signal with the same parameters never
increases the peak: the peak dBFS of the doubly-limited signal is at most
that of the singly-limited signal. (The originally claimed < 0.5 dB bound on
the change fails; see the counterexample.) -/
theorem c8_relimit_peak_nonincreasing (cfg : EnhancementV2Config) (signal : List ℝ)
    (force : Bool) (thr : Option ℝ) :
    estimate_peak_dbfs
        ((apply_limiter cfg ((apply_limiter cfg signal force thr).1) force thr).1) ≤
      estimate_peak_dbfs ((apply_limiter cfg signal force thr).1) := by
  set y1 := (apply_limiter cfg signal force thr).1 with hy1
  set y2 := (apply_limiter cfg y1 force thr).1 with hy2
  have hlen : y2.length = y1.length := apply_limiter_length cfg y1 force thr
  have hpt : ∀ i, |y2.getD i 0| ≤ |y1.getD i 0| := fun i =>
    apply_limiter_abs_getD_le cfg y1 force thr i
  have hmax : maxAbs y2 ≤ maxAbs y1 := maxAbs_mono_pointwise y2 y1 hlen hpt
  rw [estimate_peak_dbfs, estimate_peak_dbfs]
  by_cases h0 : y1.length = 0
  · rw [if_pos (by rw [hlen, h0]), if_pos h0]
  · rw [if_neg (by rw [hlen]; exact h0), if_neg h0]
    have harg : max (maxAbs y2) 1e-7 ≤ max (maxAbs y1) 1e-7 := max_le_max hmax le_rfl
    have hpos : (0 : ℝ) < max (maxAbs y2) 1e-7 :=
      lt_of_lt_of_le (by norm_num) (le_max_right _ _)
    have hlog := Real.logb_le_logb_of_le (by norm_num : (1 : ℝ) < 10) hpos harg
    rw [log10, log10]
    linarith

/-- The C8 counterexample configuration: enabled limiter with threshold 0.6,
attack 0.1 ms and release 1 ms. -/
def cfgFastLimiter : EnhancementV2Config :=
  { limiter := { enabled := true, threshold := 0.6, attack_ms := 0.1, release_ms := 1.0 } }

/-- One pass of the C8 limiter over a single sample above threshold: output
`x * (attack + (1 - attack) * (0.6 / x))` with `attack = exp(-5/8)`. -/
theorem apply_limiter_fast_single (x : ℝ) (hx1 : 0.6 < x) (hx2 : x ≤ 1) :
    (apply_limiter cfgFastLimiter [x] false none).1 =
      [x * (Real.exp (-(5 : ℝ) / 8) * 1.0 +
        (1 - Real.exp (-(5 : ℝ) / 8)) * (0.6 / x))] := by
  have hA0 : (0 : ℝ) < Real.exp (-(5 : ℝ) / 8) := Real.exp_pos _
  have hA1 : Real.exp (-(5 : ℝ) / 8) < 1 := Real.exp_lt_one_iff.mpr (by norm_num)
  rw [apply_limiter, if_neg (by decide)]
  dsimp only
  have hthr : clamp ((none : Option ℝ).getD cfgFastLimiter.limiter.threshold) 0.6 0.999 =
      0.6 := by
    rw [Option.getD_none, show cfgFastLimiter.limiter.threshold = 0.6 from rfl]
    exact clamp_eq_self _ _ _ le_rfl (by norm_num)
  rw [hthr]
  rw [show max 0.1 cfgFastLimiter.limiter.attack_ms = 0.1 from by
    rw [show cfgFastLimiter.limiter.attack_ms = 0.1 from rfl, max_self]]
  rw [show (-1 / max 1.0 ((0.1 : ℝ) / 1000 * 16000.0)) = -(5 : ℝ) / 8 from by
    rw [max_eq_right (by norm_num)]
    norm_num]
  simp only [limiterGains]
  rw [abs_of_pos (by linarith : (0 : ℝ) < x)]
  rw [if_neg (by push_neg; linarith : ¬ x ≤ 0.6)]
  rw [max_eq_left (by linarith : (1e-6 : ℝ) ≤ x)]
  rw [if_pos (show (0.6 : ℝ) / x < 1.0 from by
    have h := (div_lt_one (show (0 : ℝ) < x by linarith)).mpr (by linarith : (0.6 : ℝ) < x)
    linarith)]
  simp only [List.zip_cons_cons, List.zip_nil_right, List.map_cons, List.map_nil]
  have hdiv0 : (0 : ℝ) < 0.6 / x := div_pos (by norm_num) (by linarith)
  have hdiv1 : (0.6 : ℝ) / x < 1 := by
    rw [div_lt_one (by linarith)]
    linarith
  have hg0 : 0 ≤ Real.exp (-(5 : ℝ) / 8) * 1.0 +
      (1 - Real.exp (-(5 : ℝ) / 8)) * (0.6 / x) := by nlinarith
  have hg1 : Real.exp (-(5 : ℝ) / 8) * 1.0 +
      (1 - Real.exp (-(5 : ℝ) / 8)) * (0.6 / x) ≤ 1 := by nlinarith
  rw [clamp_eq_self _ _ _ (by nlinarith) (by nlinarith)]

/-- Peak dBFS of a one-sample signal above the floor. -/
theorem estimate_peak_dbfs_single_pos (v : ℝ) (hv : (1e-7 : ℝ) ≤ v) :
    estimate_peak_dbfs [v] = 20.0 * Real.logb 10 v := by
  have hv0 : (0 : ℝ) ≤ v := le_trans (by norm_num) hv
  rw [estimate_peak_dbfs, if_neg (by simp)]
  rw [show maxAbs [v] = v from by
    rw [maxAbs_cons, show maxAbs ([] : List ℝ) = 0 from rfl,
      max_eq_left (abs_nonneg v), abs_of_nonneg hv0]]
  rw [max_eq_left hv, log10]

set_option maxHeartbeats 2000000 in
/-- C8 (counterexample): with threshold 0.6, attack 0.1 ms and release 1 ms,
re-limiting the already-limited signal `[1]` changes the peak by strictly
more than 0.5 dB, refuting the claimed < 0.5 dB idempotence bound. -/
theorem c8_relimit_counterexample :
    1 / 2 < |estimate_peak_dbfs
        ((apply_limiter cfgFastLimiter
          ((apply_limiter cfgFastLimiter [1] false none).1) false none).1) -
      estimate_peak_dbfs ((apply_limiter cfgFastLimiter [1] false none).1)| := by
  have hA0 : (0 : ℝ) < Real.exp (-(5 : ℝ) / 8) := Real.exp_pos _
  have ha1 : (1 : ℝ) / 2 < Real.exp (-(5 : ℝ) / 8) := by
    have h : Real.exp (-Real.log 2) = 1 / 2 := by
      rw [Real.exp_neg, Real.exp_log (by norm_num : (0 : ℝ) < 2)]
      norm_num
    rw [← h]
    apply Real.exp_lt_exp.mpr
    have := Real.log_two_gt_d9
    linarith
  have ha2 : Real.exp (-(5 : ℝ) / 8) < 5 / 9 := by
    have hexp58 : (9 : ℝ) / 5 < Real.exp ((5 : ℝ) / 8) := by
      have h1 : ((9 : ℝ) / 8) ^ (5 : ℕ) ≤ (Real.exp ((1 : ℝ) / 8)) ^ (5 : ℕ) := by
        apply pow_le_pow_left₀ (by norm_num)
        have := Real.add_one_le_exp ((1 : ℝ) / 8)
        linarith
      have h2 : (Real.exp ((1 : ℝ) / 8)) ^ (5 : ℕ) = Real.exp ((5 : ℝ) / 8) := by
        rw [← Real.exp_nat_mul]
        congr 1
        norm_num
      have h3 : (9 : ℝ) / 5 < ((9 : ℝ) / 8) ^ (5 : ℕ) := by norm_num
      linarith
    have : Real.exp (-(5 : ℝ) / 8) = (Real.exp ((5 : ℝ) / 8))⁻¹ := by
      rw [← Real.exp_neg]
      norm_num
    rw [this, show ((5 : ℝ) / 9) = ((9 : ℝ) / 5)⁻¹ by norm_num]
    exact inv_strictAnti₀ (by norm_num) hexp58
  set A := Real.exp (-(5 : ℝ) / 8) with hA
  have h1 : (apply_limiter cfgFastLimiter [1] false none).1 =
      [1 * (A * 1.0 + (1 - A) * (0.6 / 1))] :=
    apply_limiter_fast_single 1 (by norm_num) le_rfl
  have hp1eq : (1 : ℝ) * (A * 1.0 + (1 - A) * (0.6 / 1)) = 0.6 + 0.4 * A := by ring
  have hp1lo : (0.6 : ℝ) < 0.6 + 0.4 * A := by nlinarith
  have hp1hi : (0.6 : ℝ) + 0.4 * A ≤ 1 := by nlinarith
  have h2 : (apply_limiter cfgFastLimiter [0.6 + 0.4 * A] false none).1 =
      [(0.6 + 0.4 * A) * (A * 1.0 + (1 - A) * (0.6 / (0.6 + 0.4 * A)))] :=
    apply_limiter_fast_single (0.6 + 0.4 * A) hp1lo hp1hi
  have hp2eq : (0.6 + 0.4 * A) * (A * 1.0 + (1 - A) * (0.6 / (0.6 + 0.4 * A))) =
      0.6 + 0.4 * A ^ 2 := by
    field_simp
    ring
  have hp2pos : (0 : ℝ) < 0.6 + 0.4 * A ^ 2 := by nlinarith
  rw [h1, hp1eq, h2, hp2eq]
  rw [estimate_peak_dbfs_single_pos _ (by nlinarith),
    estimate_peak_dbfs_single_pos _ (by nlinarith)]
  have hp2lt : (0.6 : ℝ) + 0.4 * A ^ 2 < 0.6 + 0.4 * A := by nlinarith
  have hloglt : Real.logb 10 (0.6 + 0.4 * A ^ 2) < Real.logb 10 (0.6 + 0.4 * A) :=
    Real.logb_lt_logb (by norm_num) hp2pos hp2lt
  rw [abs_of_neg (by linarith)]
  have hdivpos : (0 : ℝ) < (0.6 + 0.4 * A) / (0.6 + 0.4 * A ^ 2) :=
    div_pos (by linarith) hp2pos
  have h10lt : (10 : ℝ) ^ ((1 : ℝ) / 40) < (0.6 + 0.4 * A) / (0.6 + 0.4 * A ^ 2) := by
    have hb : (10 : ℝ) < ((11 : ℝ) / 10) ^ (40 : ℕ) := by norm_num
    have hc : ((10 : ℝ)) ^ ((1 : ℝ) / 40) <
        (((11 : ℝ) / 10) ^ (40 : ℕ)) ^ ((1 : ℝ) / 40) :=
      Real.rpow_lt_rpow (by norm_num) hb (by norm_num)
    have hd : ((((11 : ℝ) / 10) ^ (40 : ℕ)) : ℝ) ^ ((1 : ℝ) / 40) = 11 / 10 := by
      rw [← Real.rpow_natCast ((11 : ℝ) / 10) 40, ← Real.rpow_mul (by norm_num)]
      rw [show ((40 : ℕ) : ℝ) * ((1 : ℝ) / 40) = 1 by norm_num, Real.rpow_one]
    have he : ((11 : ℝ) / 10) < (0.6 + 0.4 * A) / (0.6 + 0.4 * A ^ 2) := by
      rw [lt_div_iff₀ hp2pos]
      nlinarith [mul_pos (sub_pos.mpr ha1) (sub_pos.mpr ha2)]
    rw [hd] at hc
    linarith
  have hlog40 : (1 : ℝ) / 40 < Real.logb 10 ((0.6 + 0.4 * A) / (0.6 + 0.4 * A ^ 2)) :=
    (Real.lt_logb_iff_rpow_lt (by norm_num) hdivpos).mpr h10lt
  rw [Real.logb_div (ne_of_gt (by linarith)) (ne_of_gt hp2pos)] at hlog40
  linarith

theorem c1_clip_safety_limiter_enabled_witness :
    cfgDefault.limiter.enabled = true ∧
    ∀ x ∈ (process envNone cfgDefault [] 16000 none).1, -1 ≤ x ∧ x ≤ 1 :=
  ⟨rfl, c1_clip_safety_limiter_enabled envNone cfgDefault [] 16000 none rfl⟩

theorem c7_pcm16_roundtrip_witness :
    float_to_pcm16 [(0 : ℝ)] =
      [(0 : ℝ)].map (fun x => roundHalfEvenR (clamp x (-1.0) 1.0 * 32767.0)) ∧
    (∀ v ∈ float_to_pcm16 [(0 : ℝ)], -32768 < v ∧ v ≤ 32767 ∧
      ∃ x ∈ [(0 : ℝ)], |(v : ℝ) - clamp x (-1.0) 1.0 * 32767.0| ≤ 1 / 2) ∧
    ∀ w : ℤ, pcm16_to_float w = (w : ℝ) / 32768 :=
  c7_pcm16_roundtrip [(0 : ℝ)]

theorem c8_relimit_peak_nonincreasing_witness :
    estimate_peak_dbfs
        ((apply_limiter cfgDefault
          ((apply_limiter cfgDefault [(1 : ℝ)] false none).1) false none).1) ≤
      estimate_peak_dbfs ((apply_limiter cfgDefault [(1 : ℝ)] false none).1) :=
  c8_relimit_peak_nonincreasing cfgDefault [(1 : ℝ)] false none

end GhostType
